import Mathlib

/-!
Shallow embedding of the mdCATH stratified-sampling pipeline.

The embedded program consists of three source modules:
* `sampling.py` — `hierarchical_stratified_sampling` and `network_aware_sampling`;
* `validation.py` — `statistical_validation` and `calculate_representation_index`;
* `main.py` — the holdout/training partition and the iterative refinement loop.

Modelling conventions:
* Python dicts become association lists (`List (String × _)`); insertion order is
  preserved so that iteration over `dict.items()` matches list order.
* Floats become exact rationals `ℚ`.  The single irrational quantity in the
  program — the cube root used for the representation index — is modelled over
  `ℝ` by a separate definition, so everything else stays computable.
* External libraries (sklearn `KMeans.fit_predict` composed with the
  deterministic feature standardisation, scipy's `kstest` p-value and
  `chi2.cdf`, and numpy's global random stream) are uninterpreted functions
  collected in an `Env` structure; the numpy stream is modelled as two indexed
  streams consumed through a counter threaded through the pipeline.
* Python `set` iteration order is unspecified; the embedding fixes
  first-occurrence order.  Every theorem below is insensitive to this choice
  (they are order-independent membership / cardinality statements).
-/

/-- A value stored in a per-domain feature record: the Python feature dicts
hold floats and, under the key `stability_class`, strings. -/
inductive FeatVal where
  | num (q : ℚ)
  | str (s : String)
deriving DecidableEq, Repr

/-- A per-domain feature record (`domain_features[d]` in the source). -/
abbrev FeatureRecord := List (String × FeatVal)

/-- The feature store `domain_features`. -/
abbrev Features := List (String × FeatureRecord)

/-- A CATH classification code `(class, architecture, topology, homology)`. -/
abbrev CathTuple := ℤ × ℤ × ℤ × ℤ

/-- The classification index `cath_dict`. -/
abbrev Cath := List (String × CathTuple)

/-- `record.get(key, default)` restricted to numeric values. -/
def getNum (fr : FeatureRecord) (k : String) (d : ℚ) : ℚ :=
  match fr.lookup k with
  | some (FeatVal.num q) => q
  | _ => d

/-- `record.get(key, default)` restricted to string values. -/
def getStr (fr : FeatureRecord) (k : String) (d : String) : String :=
  match fr.lookup k with
  | some (FeatVal.str s) => s
  | _ => d

/-- `key in record` for a feature record. -/
def hasFeat (fr : FeatureRecord) (k : String) : Bool := (fr.lookup k).isSome

/-- `domain_features[d]`; total because every use in the source is guarded by
`d in domain_features`. -/
def featOf (df : Features) (d : String) : FeatureRecord := (df.lookup d).getD []

/-- `d in domain_features`. -/
def hasDom (df : Features) (d : String) : Bool := (df.lookup d).isSome

/-- `d in cath_dict`. -/
def inCath (cd : Cath) (d : String) : Bool := (cd.lookup d).isSome

/-- Distinct elements of a list in first-occurrence order: the keys of a
Python `Counter`/`set` built by insertion. -/
def firstDedup {α : Type} [BEq α] (l : List α) : List α :=
  l.foldl (fun acc x => if acc.contains x then acc else acc ++ [x]) []

/-- `Counter(l)[x]`: number of occurrences of `x` in `l`. -/
def countEq {α : Type} [BEq α] (l : List α) (x : α) : ℕ :=
  (l.filter (fun y => y == x)).length

/-- Python `int(q)` for the nonnegative quantities appearing in the source
(`int` truncates toward zero, which is `floor` on nonnegative input; every
use in the source is wrapped in `max(1, ·)`, which also agrees with this
definition on negative input since both sides collapse to `1`). -/
def pyInt (q : ℚ) : ℕ := (Int.floor q).toNat

/-- Python `int(np.ceil(q))`, as a natural number (again only used under
`max(1, ·)`). -/
def pyCeil (q : ℚ) : ℕ := (Int.ceil q).toNat

/-- External collaborators of the core, modelled as uninterpreted functions.

* `kmeans k M` stands for `KMeans(n_clusters=k, random_state=42).fit_predict`
  applied to the standardised form of the raw feature matrix `M`; since the
  standardisation `(x - mean)/(std + 1e-10)` is a deterministic function of
  `M`, the composite is a deterministic function of `k` and `M` and is
  abstracted as one function returning one cluster label per row.
* `ks a b` is the p-value of `scipy.stats.kstest(a, b)`.
* `chi2cdf x df` is `scipy.stats.chi2.cdf(x, df)`.
* `randQ` / `randN` model numpy's global random stream: the `n`-th float drawn
  by `np.random.random()` resp. the `n`-th raw index drawn by
  `np.random.choice`, consumed through a single counter. -/
structure Env where
  kmeans : ℕ → List (List ℚ) → List ℕ
  ks : List ℚ → List ℚ → ℚ
  chi2cdf : ℚ → ℕ → ℚ
  randQ : ℕ → ℚ
  randN : ℕ → ℕ

/-! ## Stratified sampler (`sampling.py`, `hierarchical_stratified_sampling`) -/

/-- The numeric feature vector built per domain for clustering
(`sampling.py` lines 36–48): the five base features, plus `avg_rmsf_320`
exactly when that key is present. -/
def featureVectorOf (fr : FeatureRecord) : List ℚ :=
  let base := [getNum fr "size" 0, getNum fr "helix_pct" 0, getNum fr "sheet_pct" 0,
               getNum fr "core_ratio" 0, getNum fr "avg_accessibility" 0]
  if hasFeat fr "avg_rmsf_320" then base ++ [getNum fr "avg_rmsf_320" 0] else base

/-- `[domain_order[i] for i, c in enumerate(clusters) if c == cluster_id]`. -/
def clusterMembers (order : List String) (labels : List ℕ) (c : ℕ) : List String :=
  ((order.zip labels).filter (fun p => p.2 == c)).map Prod.fst

/-- `np.random.choice(l)` given a raw draw `n`: a uniformly chosen element,
modelled as indexing by `n % l.length`. -/
def pickAt (l : List String) (n : ℕ) : String := l.getD (n % l.length) ""

/-- `n_clusters = max(1, int(np.ceil(len(domain_list) * sample_ratio)))`. -/
def nClustersFor (n : ℕ) (r : ℚ) : ℕ := max 1 (pyCeil ((n : ℚ) * r))

/-- The body of the loop `for cluster_id in range(n_clusters)` selecting one
random representative from every non-empty cluster (`sampling.py` lines
63–68), processing the remaining cluster ids.  The counter advances only when
a draw actually happens, matching the numpy stream. -/
def selectRepsGo (randN : ℕ → ℕ) (order : List String) (labels : List ℕ) :
    List ℕ → ℕ → List String × ℕ
  | [], ctr => ([], ctr)
  | cid :: rest, ctr =>
      let cluster := clusterMembers order labels cid
      if cluster.isEmpty then selectRepsGo randN order labels rest ctr
      else
        let res := selectRepsGo randN order labels rest (ctr + 1)
        (pickAt cluster (randN ctr) :: res.1, res.2)

/-- The loop `for cluster_id in range(n_clusters)` (`sampling.py` lines
63–68). -/
def selectClusterReps (randN : ℕ → ℕ) (k : ℕ) (order : List String) (labels : List ℕ)
    (ctr : ℕ) : List String × ℕ :=
  selectRepsGo randN order labels (List.range k) ctr

/-- The `(domain, feature vector)` rows collected for a stratum
(`sampling.py` lines 30–50): domains of the list present in the feature
store, paired with their clustering vectors. -/
def stratumPairs (df : Features) (domain_list : List String) : List (String × List ℚ) :=
  domain_list.filterMap
    (fun d => if hasDom df d then some (d, featureVectorOf (featOf df d)) else none)

/-- `domain_order` for a stratum. -/
def stratumOrder (df : Features) (domain_list : List String) : List String :=
  (stratumPairs df domain_list).map Prod.fst

/-- The cluster labels `kmeans.fit_predict(feature_matrix)` for a stratum. -/
def stratumLabels (env : Env) (df : Features) (r : ℚ) (domain_list : List String) :
    List ℕ :=
  env.kmeans (nClustersFor domain_list.length r) ((stratumPairs df domain_list).map Prod.snd)

/-- The `len(domain_list) >= 10` branch of the stratum loop
(`sampling.py` lines 26–68): build the feature matrix over domains present in
the feature store, skip the stratum when the matrix is empty, otherwise
cluster and pick one representative per non-empty cluster. -/
def largeStratumSelection (env : Env) (df : Features) (r : ℚ) (ctr : ℕ)
    (domain_list : List String) : List String × ℕ :=
  if (stratumPairs df domain_list).isEmpty then ([], ctr)
  else
    selectClusterReps env.randN (nClustersFor domain_list.length r)
      (stratumOrder df domain_list) (stratumLabels env df r domain_list) ctr

/-- `np.random.choice(pool, k, replace=False)`: draw `k` times without
replacement, each draw indexing the remaining pool by the next raw stream
value.  (The source only calls this with `k ≤ len(pool)`; on exhausted pools
this model stops instead of raising.) -/
def drawWoR {α : Type} [Inhabited α] (randN : ℕ → ℕ) : ℕ → ℕ → List α → List α × ℕ
  | 0, ctr, _ => ([], ctr)
  | k + 1, ctr, pool =>
      if pool.isEmpty then ([], ctr)
      else
        let i := randN ctr % pool.length
        let x := pool.getD i default
        let rest := drawWoR randN k (ctr + 1) (pool.eraseIdx i)
        (x :: rest.1, rest.2)

/-- One iteration of the stratum loop (`sampling.py` lines 25–81): clustering
for strata of at least 10 members, probabilistic inclusion for singletons,
and `max(1, int(len * ratio))` draws without replacement for strata of 2–9
members. -/
def processStratum (env : Env) (df : Features) (r : ℚ) (ctr : ℕ)
    (domain_list : List String) : List String × ℕ :=
  if 10 ≤ domain_list.length then largeStratumSelection env df r ctr domain_list
  else if 0 < domain_list.length then
    if domain_list.length == 1 then
      if env.randQ ctr < r then (domain_list.take 1, ctr + 1) else ([], ctr + 1)
    else
      let k := max 1 (pyInt ((domain_list.length : ℚ) * r))
      drawWoR env.randN k ctr domain_list
  else ([], ctr)

/-- Append `a` to the group keyed `key`, creating the group at the end when
absent — the update behaviour of a `defaultdict(list)`. -/
def insertGrouped {κ α : Type} [BEq κ] : List (κ × List α) → κ → α → List (κ × List α)
  | [], key, a => [(key, [a])]
  | (k', l) :: rest, key, a =>
      if k' == key then (k', l ++ [a]) :: rest
      else (k', l) :: insertGrouped rest key a

/-- Group a list of key/value pairs preserving key insertion order. -/
def groupPairs {κ α : Type} [BEq κ] (l : List (κ × α)) : List (κ × List α) :=
  l.foldl (fun acc p => insertGrouped acc p.1 p.2) []

/-- The CATH hierarchy restricted to its strata (`sampling.py` lines 9–17):
domains present in both the feature store and the classification index,
grouped by the `(class, architecture, topology)` prefix.  (Python iterates a
`set` here, whose order is unspecified; the embedding fixes first-occurrence
order of the feature store — all theorems below are order-independent.) -/
def strataOf (df : Features) (cd : Cath) : List ((ℤ × ℤ × ℤ) × List String) :=
  let domains := (firstDedup (df.map Prod.fst)).filter (fun d => inCath cd d)
  groupPairs (domains.filterMap
    (fun d => (cd.lookup d).map (fun t => ((t.1, t.2.1, t.2.2.1), d))))

/-- The stratum loop (`sampling.py` lines 23–81): process the remaining
strata, accumulating selections and threading the stream counter. -/
def stratifiedGo (env : Env) (df : Features) (r : ℚ) :
    List ((ℤ × ℤ × ℤ) × List String) → ℕ → List String × ℕ
  | [], ctr => ([], ctr)
  | s :: rest, ctr =>
      let res := processStratum env df r ctr s.2
      let res' := stratifiedGo env df r rest res.2
      (res.1 ++ res'.1, res'.2)

/-- The candidate holdout list accumulated over all strata
(`sampling.py` lines 19–81), together with the final stream counter. -/
def stratifiedCandidates (env : Env) (df : Features) (cd : Cath) (r : ℚ) :
    List String × ℕ :=
  stratifiedGo env df r (strataOf df cd) 0

/-! ## Homology filter (`sampling.py`, `network_aware_sampling`) -/

/-- The edge condition of the domain graph (`sampling.py` lines 97–117):
same 4-character PDB prefix, or identical full CATH tuple when both domains
are classified. -/
def edgeRel (cd : Cath) (d1 d2 : String) : Bool :=
  (d1.take 4 == d2.take 4) ||
    (match cd.lookup d1, cd.lookup d2 with
     | some t1, some t2 => t1 == t2
     | _, _ => false)

/-- Does component `c` contain a neighbour of `d` (in either direction of the
edge predicate)? -/
def touches (edge : String → String → Bool) (d : String) (c : List String) : Bool :=
  c.any (fun x => edge d x || edge x d)

/-- Merge a new node into a component list: all components containing a
neighbour of `d` coalesce with `d` into one. -/
def addToComponents (edge : String → String → Bool) (comps : List (List String))
    (d : String) : List (List String) :=
  (d :: (comps.filter (touches edge d)).flatten) :: comps.filter (fun c => !(touches edge d c))

/-- `list(nx.connected_components(G))` for the graph on `candidates` with edge
predicate `edge`, computed by incremental merging. -/
def connectedComponents (edge : String → String → Bool) (candidates : List String) :
    List (List String) :=
  candidates.foldl (addToComponents edge) []

/-- A component list is closed under the edge predicate: an edge never runs
between two distinct listed components.  `nx.connected_components` satisfies
this by definition of connectivity. -/
def EdgeClosed (edge : String → String → Bool) (comps : List (List String)) : Prop :=
  ∀ c1 ∈ comps, ∀ c2 ∈ comps, ∀ x ∈ c1, ∀ y ∈ c2,
    (edge x y || edge y x) = true → c1 = c2

/-- Stable insertion of `a` into a sorted list: `a` goes in front of the
first element it compares `le` to, so earlier-listed elements win ties. -/
def insertS {α : Type} (le : α → α → Bool) (a : α) : List α → List α
  | [] => [a]
  | b :: t => if le a b then a :: b :: t else b :: insertS le a t

/-- Python's stable `sorted(l, key=...)`, as a structurally recursive stable
insertion sort (any stable sort computes the same list, so this is the
function `sorted` denotes). -/
def pySorted {α : Type} (le : α → α → Bool) : List α → List α
  | [] => []
  | a :: t => insertS le a (pySorted le t)

/-- Python's `max(items, key=value)`: the first pair of maximal count. -/
def argmaxFirst (l : List (String × ℕ)) : Option String :=
  (l.foldl
    (fun acc p =>
      match acc with
      | none => some p
      | some q => if p.2 > q.2 then some p else some q)
    none).map Prod.fst

/-- Majority stability class of a component (`sampling.py` lines 131–143):
counts `stability_class` (default `"unknown"`) over members present in the
feature store; a component with no such member falls into `"unknown"`. -/
def majorityStability (df : Features) (component : List String) : String :=
  let classes := component.filterMap
    (fun d => if hasDom df d then some (getStr (featOf df d) "stability_class" "unknown")
              else none)
  match argmaxFirst ((firstDedup classes).map (fun c => (c, countEq classes c))) with
  | some c => c
  | none => "unknown"

/-- Components sorted by descending size
(`sorted(connected_components, key=len, reverse=True)`). -/
def sortedComponentsOf (cd : Cath) (candidates : List String) : List (List String) :=
  pySorted (fun a b => decide (b.length ≤ a.length))
    (connectedComponents (edgeRel cd) candidates)

/-- The stability-class buckets of indexed components
(`sampling.py` lines 128–143): each bucket holds `(global index, component)`
pairs in discovery order. -/
def stabilityBuckets (df : Features) (sorted : List (List String)) :
    List (String × List (ℕ × List String)) :=
  groupPairs (sorted.enum.map (fun p => (majorityStability df p.2, p)))

/-- Sampling from one bucket (`sampling.py` lines 148–152):
`max(1, int(len(components) * sample_ratio))` positions drawn without
replacement, mapped to the global component indices stored in the bucket. -/
def bucketDraw (env : Env) (ctr : ℕ) (bucket : List (ℕ × List String)) (r : ℚ) :
    List ℕ × ℕ :=
  let k := max 1 (pyInt ((bucket.length : ℚ) * r))
  let res := drawWoR env.randN k ctr (List.range bucket.length)
  (res.1.map (fun p => (bucket.getD p (0, [])).1), res.2)

/-- The loop `for stability_class, components in stability_components.items()`
(`sampling.py` lines 146–152), processing the remaining buckets. -/
def bucketsGo (env : Env) (r : ℚ) : List (String × List (ℕ × List String)) → ℕ → List ℕ × ℕ
  | [], ctr => ([], ctr)
  | b :: rest, ctr =>
      let res := bucketDraw env ctr b.2 r
      let res' := bucketsGo env r rest res.2
      (res.1 ++ res'.1, res'.2)

/-- All sampled global component indices, accumulated bucket by bucket. -/
def sampledIndices (env : Env) (ctr : ℕ) (df : Features)
    (sorted : List (List String)) (r : ℚ) : List ℕ × ℕ :=
  bucketsGo env r (stabilityBuckets df sorted) ctr

/-- The components whose domains make up the final holdout, in ascending
index order (`for idx in sorted(sampled_indices)`). -/
def selectedComponents (env : Env) (ctr : ℕ) (candidates : List String)
    (df : Features) (cd : Cath) (r : ℚ) : List (List String) :=
  let sorted := sortedComponentsOf cd candidates
  (pySorted (fun a b => decide (a ≤ b)) (sampledIndices env ctr df sorted r).1).map
    (fun i => sorted.getD i [])

/-- `network_aware_sampling` (`sampling.py` lines 89–159): the union of all
domains of the selected components — whole components pass through.  (The
source also computes `num_components_to_sample` at line 125, but never uses
it; the variable is omitted here.) -/
def network_aware_sampling (env : Env) (ctr : ℕ) (candidates : List String)
    (df : Features) (cd : Cath) (r : ℚ) : List String :=
  (selectedComponents env ctr candidates df cd r).flatten

/-- `hierarchical_stratified_sampling` (`sampling.py` lines 6–87): stratified
candidate selection followed by the homology filter, sharing one random
stream. -/
def hierarchical_stratified_sampling (env : Env) (df : Features) (cd : Cath)
    (r : ℚ) : List String :=
  let cand := stratifiedCandidates env df cd r
  network_aware_sampling env cand.2 cand.1 df cd r

/-! ## Pipeline orchestration (`main.py`) -/

/-- `all_domains = list(domain_features.keys())`. -/
def allDomainsOf (df : Features) : List String := df.map Prod.fst

/-- `training_domains = list(set(all_domains) - set(holdout_domains))`
(`main.py` lines 82–83). -/
def trainingOf (all_domains holdout : List String) : List String :=
  all_domains.filter (fun d => !(holdout.contains d))

/-- The sampling ratio of refinement iteration `i`
(`sample_ratio = 0.1 * (1 + 0.1 * iteration)`, with iteration `0` the initial
run at `0.1`), applied to an abstract pipeline `f` that maps a ratio to a
holdout set and its representation index. -/
def pipelineAt {α : Type} (f : ℚ → α × ℚ) (i : ℕ) : α × ℚ :=
  f ((1 / 10 : ℚ) * (1 + (i : ℚ) / 10))

/-- The refinement `while` loop of `main.py` (lines 54–71): as long as the
index is below `0.9` and iterations remain, advance the iteration counter,
re-run the whole pipeline at the increased ratio, and keep the last result.
`fuel` is the number of remaining iterations (`max_iterations - iteration`). -/
def refineAux {α : Type} (f : ℚ → α × ℚ) : ℕ → ℕ → α × ℚ → (α × ℚ) × ℕ
  | 0, it, cur => (cur, it)
  | fuel + 1, it, cur =>
      if cur.2 < 9 / 10 then refineAux f fuel (it + 1) (pipelineAt f (it + 1))
      else (cur, it)

/-- The whole refinement loop: initial run at ratio `0.1`, then at most 5
refinement iterations.  Returns the kept (holdout, index) pair and the number
of refinement iterations performed. -/
def refinementRun {α : Type} (f : ℚ → α × ℚ) : (α × ℚ) × ℕ :=
  refineAux f 5 0 (pipelineAt f 0)

/-! ## Validator (`validation.py`) -/

/-- The hard failures the validator can produce.

* `valueError` — scipy's `ValueError` raised inside `stats.kstest` when a
  sample is empty: `stats.kstest(data, data)` with an array-like second
  argument dispatches to `ks_2samp`, which rejects empty data.  The two
  reachable sites are the size test (`validation.py` line 17, empty
  `holdout_with_features` or `all_with_features`) and the RMSF test (line
  27, when no population domain carries `avg_rmsf_320`); the helix/sheet
  tests run only after the size test succeeded, so their samples are
  non-empty.
* `indexError` — Python's `IndexError` from the subscript
  `holdout_with_features[0]` at line 21.  This branch is unreachable: the
  size test at line 17 already raised on an empty holdout list.  It is kept
  so that the model mirrors the source's subscript site. -/
inductive VErr where
  | valueError
  | indexError
deriving DecidableEq, Repr

/-- The outcome of `statistical_validation`: the results dict (all rational
entries, i.e. everything except `representation_index`, which is irrational
in the exact model and kept separately — see `representation_index`), plus
the three factors the index is computed from, exactly as the source computes
them (`distribution_similarity` and `hierarchy_coverage` are locals;
`sCov` is `validation_results.get('stability_coverage', 1.0)`). -/
structure VOut where
  results : List (String × ℚ)
  dSim : ℚ
  hCov : ℚ
  sCov : ℚ
deriving DecidableEq, Repr

/-- `dict.get(k, d)` on a rational-valued dict. -/
def lookupD (l : List (String × ℚ)) (k : String) (d : ℚ) : ℚ :=
  (l.lookup k).getD d

/-- Python `s.endswith(suffix)` (structural definition over the character
lists, equivalent to `String.endsWith`). -/
def pyEndsWith (s suffix : String) : Bool :=
  suffix.data.isSuffixOf s.data

/-- The RMSF segment of the results dict (`validation.py` lines 21–28): the
KS test on `avg_rmsf_320`, computed only when the **first** holdout domain
with features has that key. -/
def segRmsf (env : Env) (df : Features) (hwf awf : List String) (d0 : String) :
    List (String × ℚ) :=
  if hasFeat (featOf df d0) "avg_rmsf_320" then
    [("ks_rmsf_pval",
      env.ks
        ((hwf.filter (fun d => hasFeat (featOf df d) "avg_rmsf_320")).map
          (fun d => getNum (featOf df d) "avg_rmsf_320" 0))
        ((awf.filter (fun d => hasFeat (featOf df d) "avg_rmsf_320")).map
          (fun d => getNum (featOf df d) "avg_rmsf_320" 0)))]
  else []

/-- The chi-squared segment (`validation.py` lines 47–70): computed only when
both sides show more than one distinct top-level class. -/
def segChi2 (env : Env) (holdout_class all_class : List ℤ) : List (String × ℚ) :=
  if 1 < (firstDedup holdout_class).length ∧ 1 < (firstDedup all_class).length then
    let chi2 := ((firstDedup all_class).map
      (fun c =>
        let expected := (countEq all_class c : ℚ) * (holdout_class.length : ℚ) /
          (all_class.length : ℚ)
        if 0 < expected then ((countEq holdout_class c : ℚ) - expected) ^ 2 / expected
        else 0)).sum
    [("chi2_class_pval", 1 - env.chi2cdf chi2 ((firstDedup all_class).length - 1))]
  else []

/-- The stability segment (`validation.py` lines 72–84): coverage of the
distinct stability classes, computed only when the **first** holdout domain
with features has a `stability_class` key. -/
def segStab (df : Features) (hwf awf : List String) (d0 : String) :
    List (String × ℚ) :=
  if hasFeat (featOf df d0) "stability_class" then
    let represented := firstDedup (hwf.map (fun d => getStr (featOf df d) "stability_class" "unknown"))
    let classes := firstDedup (awf.map (fun d => getStr (featOf df d) "stability_class" "unknown"))
    [("stability_coverage",
      if classes.isEmpty then 1 else (represented.length : ℚ) / (classes.length : ℚ))]
  else []

/-- The weighted hierarchy coverage (`validation.py` lines 86–101). -/
def hierarchyCoverage (holdout_cath all_cath : List CathTuple) : ℚ :=
  let all_c := firstDedup (all_cath.map (fun c => c.1))
  let all_ca := firstDedup (all_cath.map (fun c => (c.1, c.2.1)))
  let all_cat := firstDedup (all_cath.map (fun c => (c.1, c.2.1, c.2.2.1)))
  let h_c := firstDedup (holdout_cath.map (fun c => c.1))
  let h_ca := firstDedup (holdout_cath.map (fun c => (c.1, c.2.1)))
  let h_cat := firstDedup (holdout_cath.map (fun c => (c.1, c.2.1, c.2.2.1)))
  let c_cov : ℚ := if all_c.isEmpty then 1 else (h_c.length : ℚ) / (all_c.length : ℚ)
  let ca_cov : ℚ := if all_ca.isEmpty then 1 else (h_ca.length : ℚ) / (all_ca.length : ℚ)
  let cat_cov : ℚ := if all_cat.isEmpty then 1 else (h_cat.length : ℚ) / (all_cat.length : ℚ)
  (2 / 10 : ℚ) * c_cov + (3 / 10 : ℚ) * ca_cov + (5 / 10 : ℚ) * cat_cov

/-- The results dict up to (excluding) `hierarchy_coverage`: the four KS /
chi-squared / stability segments in source insertion order, parameterised by
the already-filtered holdout/population lists and the top-level class lists. -/
def vPre (env : Env) (df : Features) (hwf awf : List String)
    (hclass aclass : List ℤ) (d0 : String) : List (String × ℚ) :=
  [("ks_size_pval",
    env.ks (hwf.map (fun d => getNum (featOf df d) "size" 0))
           (awf.map (fun d => getNum (featOf df d) "size" 0)))] ++
  segRmsf env df hwf awf d0 ++
  [("ks_helix_pval",
    env.ks (hwf.map (fun d => getNum (featOf df d) "helix_pct" 0))
           (awf.map (fun d => getNum (featOf df d) "helix_pct" 0))),
   ("ks_sheet_pval",
    env.ks (hwf.map (fun d => getNum (featOf df d) "sheet_pct" 0))
           (awf.map (fun d => getNum (featOf df d) "sheet_pct" 0)))] ++
  segChi2 env hclass aclass ++
  segStab df hwf awf d0

/-- The `distribution_similarity` value: mean of all `*_pval` entries of the
dict as it stands after `hierarchy_coverage` was inserted
(`validation.py` lines 103–105). -/
def vDSim (results₁ : List (String × ℚ)) : ℚ :=
  let pvals := (results₁.filter (fun p => pyEndsWith p.1 "_pval")).map Prod.snd
  if pvals.isEmpty then 0 else pvals.sum / (pvals.length : ℚ)

/-- The successful outcome of `statistical_validation` given the first
holdout-with-features domain `d0`. -/
def vOut (env : Env) (holdout all_domains : List String) (df : Features)
    (cd : Cath) (d0 : String) : VOut :=
  let hwf := holdout.filter (fun d => hasDom df d)
  let awf := all_domains.filter (fun d => hasDom df d)
  let holdout_cath := holdout.filterMap (fun d => cd.lookup d)
  let all_cath := all_domains.filterMap (fun d => cd.lookup d)
  let hierarchy := hierarchyCoverage holdout_cath all_cath
  let results₁ := vPre env df hwf awf (holdout_cath.map (fun c => c.1))
      (all_cath.map (fun c => c.1)) d0 ++ [("hierarchy_coverage", hierarchy)]
  let dSim := vDSim results₁
  let results₂ := results₁ ++ [("distribution_similarity", dSim)]
  ⟨results₂, dSim, hierarchy, lookupD results₂ "stability_coverage" 1⟩

/-- `statistical_validation` (`validation.py` lines 5–113), with scipy's
error contract made explicit (`env.ks` itself is total, so the model guards
each fallible `kstest` call site):

* line 17, `stats.kstest(holdout_sizes, all_sizes)`: raises `ValueError` if
  either sample is empty (`ks_2samp` rejects empty data) — first guard;
* line 21, `holdout_with_features[0]`: would raise `IndexError` on an empty
  list, but the first guard already failed then — unreachable branch;
* line 27, the RMSF `kstest`, reached only when the first
  holdout-with-features domain has `avg_rmsf_320`: raises `ValueError` if
  either filtered RMSF sample is empty — second guard;
* the helix/sheet tests (lines 37–38) run on the same non-empty lists as the
  size test, so they cannot fail; the remaining metrics are pure arithmetic.

Otherwise the results dict is assembled in source insertion order.
(Presence of the per-domain required numeric fields is assumed as in the
data contract: direct `[...]` accesses are read with default `0`.) -/
def statistical_validation (env : Env) (holdout all_domains : List String)
    (df : Features) (cd : Cath) : Except VErr VOut :=
  let hwf := holdout.filter (fun d => hasDom df d)
  let awf := all_domains.filter (fun d => hasDom df d)
  if hwf.isEmpty || awf.isEmpty then Except.error VErr.valueError
  else
    match hwf.head? with
    | none => Except.error VErr.indexError
    | some d0 =>
        if hasFeat (featOf df d0) "avg_rmsf_320" &&
            ((hwf.filter (fun d => hasFeat (featOf df d) "avg_rmsf_320")).isEmpty ||
             (awf.filter (fun d => hasFeat (featOf df d) "avg_rmsf_320")).isEmpty) then
          Except.error VErr.valueError
        else Except.ok (vOut env holdout all_domains df cd d0)

/-- Python's `x ** (1/3)` on the nonnegative reals arising here. -/
noncomputable def cubeRoot (x : ℝ) : ℝ := x ^ ((1 : ℝ) / 3)

/-- The `representation_index` value stored by `statistical_validation`
(`validation.py` lines 103–111):
`(distribution_similarity * hierarchy_coverage * stability_coverage) ** (1/3)`
with `stability_coverage` read back with default `1.0`. -/
noncomputable def representation_index (v : VOut) : ℝ :=
  cubeRoot ((v.dSim : ℝ) * (v.hCov : ℝ) * (v.sCov : ℝ))

/-- `calculate_representation_index` (`validation.py` lines 115–122): the
standalone helper reading all three factors with default `0`. -/
noncomputable def calculate_representation_index (vr : List (String × ℚ)) : ℝ :=
  cubeRoot ((lookupD vr "distribution_similarity" 0 : ℝ) *
    (lookupD vr "hierarchy_coverage" 0 : ℝ) * (lookupD vr "stability_coverage" 0 : ℝ))

/-! ## Concrete instances used to witness the theorems below -/

/-- A concrete environment: the clusterer labels every row `0`, both
statistical tests return `1` resp. `0`, and the random streams are constant
`0`. -/
def envC : Env :=
  { kmeans := fun _ m => List.replicate m.length 0
    ks := fun _ _ => 1
    chi2cdf := fun _ _ => 0
    randQ := fun _ => 0
    randN := fun _ => 0 }

/-- A feature record that has `avg_rmsf_348` but not `avg_rmsf_320`. -/
def frC5 : FeatureRecord :=
  [("size", FeatVal.num 50), ("helix_pct", FeatVal.num 1), ("sheet_pct", FeatVal.num 2),
   ("core_ratio", FeatVal.num 3), ("avg_accessibility", FeatVal.num 4),
   ("avg_rmsf_348", FeatVal.num 7)]

/-- The required numeric fields of the data contract, shared by the concrete
feature records below (no optional keys). -/
def baseFields : FeatureRecord :=
  [("size", FeatVal.num 120), ("helix_pct", FeatVal.num (1 / 2)),
   ("sheet_pct", FeatVal.num (1 / 4)), ("coil_pct", FeatVal.num (1 / 4)),
   ("core_ratio", FeatVal.num (2 / 5)), ("avg_accessibility", FeatVal.num (3 / 10))]

/-- A one-domain feature store (domain `"a"`, all required fields, no
optional keys). -/
def dfA : Features := [("a", baseFields)]

/-- A one-domain classification index. -/
def cdA : Cath := [("a", ((1 : ℤ), (2 : ℤ), (3 : ℤ), (4 : ℤ)))]

/-- A one-domain feature store whose domain has all required fields and a
`stability_class`. -/
def dfB : Features :=
  [("a", baseFields ++ [("stability_class", FeatVal.str "stable")])]

/-- A two-domain feature store where both domains carry every required
numeric field and only the second domain `"b"` carries `avg_rmsf_320`. -/
def dfC6 : Features :=
  [("a", baseFields),
   ("b", baseFields ++ [("avg_rmsf_320", FeatVal.num 5)])]

/-- Two candidate domains sharing the 4-character prefix `"aaaa"`. -/
def candsC2 : List String := ["aaaa1", "aaaa2"]

/-- A stability bucket holding three indexed components. -/
def bucketC : List (ℕ × List String) := [(0, ["a"]), (1, ["b"]), (2, ["c"])]

/-- A stratum of exactly ten domains. -/
def dlC8 : List String :=
  ["d0", "d1", "d2", "d3", "d4", "d5", "d6", "d7", "d8", "d9"]

/-- Features for the ten domains of `dlC8`. -/
def dfC8 : Features :=
  [("d0", [("size", FeatVal.num 0)]), ("d1", [("size", FeatVal.num 1)]),
   ("d2", [("size", FeatVal.num 2)]), ("d3", [("size", FeatVal.num 3)]),
   ("d4", [("size", FeatVal.num 4)]), ("d5", [("size", FeatVal.num 5)]),
   ("d6", [("size", FeatVal.num 6)]), ("d7", [("size", FeatVal.num 7)]),
   ("d8", [("size", FeatVal.num 8)]), ("d9", [("size", FeatVal.num 9)])]

/-! ## General lemmas about the embedding's list machinery -/

theorem insertS_perm {α : Type} (le : α → α → Bool) (a : α) :
    ∀ l : List α, List.Perm (insertS le a l) (a :: l) := by
  intro l
  induction l with
  | nil => exact List.Perm.refl _
  | cons b t ih =>
      simp only [insertS]
      split
      · exact List.Perm.refl _
      · exact (ih.cons b).trans (List.Perm.swap a b t)

theorem pySorted_perm {α : Type} (le : α → α → Bool) :
    ∀ l : List α, List.Perm (pySorted le l) l := by
  intro l
  induction l with
  | nil => exact List.Perm.refl _
  | cons a t ih => exact (insertS_perm le a (pySorted le t)).trans (ih.cons a)

theorem mem_pySorted {α : Type} {le : α → α → Bool} {x : α} {l : List α} :
    x ∈ pySorted le l ↔ x ∈ l :=
  (pySorted_perm le l).mem_iff

theorem lookup_isSome_iff {β : Type} (l : List (String × β)) (k : String) :
    (l.lookup k).isSome = true ↔ k ∈ l.map Prod.fst := by
  induction l with
  | nil => simp [List.lookup]
  | cons p t ih =>
      obtain ⟨k', v⟩ := p
      by_cases h : k = k'
      · subst h
        simp [List.lookup]
      · have hb : (k == k') = false := beq_false_of_ne h
        simp [List.lookup, hb, ih, h]

theorem lookup_eq_none_of_not_mem {β : Type} {l : List (String × β)} {k : String}
    (h : k ∉ l.map Prod.fst) : l.lookup k = none := by
  cases hl : l.lookup k with
  | none => rfl
  | some v =>
      exfalso
      exact h ((lookup_isSome_iff l k).mp (by simp [hl]))

theorem lookup_append_of_not_mem_left {β : Type} {l1 : List (String × β)}
    (l2 : List (String × β)) {k : String} (h : k ∉ l1.map Prod.fst) :
    (l1 ++ l2).lookup k = l2.lookup k := by
  induction l1 with
  | nil => rfl
  | cons p t ih =>
      obtain ⟨k', v⟩ := p
      have hne : k ≠ k' := by
        intro he
        exact h (by simp [he])
      have hb : (k == k') = false := beq_false_of_ne hne
      have ht : k ∉ t.map Prod.fst := fun hm => h (by simp [hm])
      simp [List.lookup, hb, ih ht]

theorem getD_mem_of_ne_nil {α : Type} [Inhabited α] {l : List α} (h : l ≠ [])
    (n : ℕ) (d : α) : l.getD (n % l.length) d ∈ l := by
  have hlen : 0 < l.length := List.length_pos.mpr h
  have hm : n % l.length < l.length := Nat.mod_lt _ hlen
  rw [List.getD_eq_getElem?_getD, List.getElem?_eq_getElem hm, Option.getD_some]
  exact List.getElem_mem hm

theorem pickAt_mem {l : List String} (h : l ≠ []) (n : ℕ) : pickAt l n ∈ l :=
  getD_mem_of_ne_nil h n ""

theorem drawWoR_subset {α : Type} [Inhabited α] (randN : ℕ → ℕ) :
    ∀ (k ctr : ℕ) (pool : List α) (x : α), x ∈ (drawWoR randN k ctr pool).1 → x ∈ pool := by
  intro k
  induction k with
  | zero => intro ctr pool x hx; simp [drawWoR] at hx
  | succ n ih =>
      intro ctr pool x hx
      by_cases hp : pool.isEmpty
      · simp [drawWoR, hp] at hx
      · have hne : pool ≠ [] := by simpa [List.isEmpty_iff] using hp
        simp only [drawWoR, hp, Bool.false_eq_true, if_false, List.mem_cons] at hx
        rcases hx with h | h
        · subst h
          exact getD_mem_of_ne_nil hne _ _
        · exact List.eraseIdx_subset _ _ (ih _ _ _ h)

theorem drawWoR_length {α : Type} [Inhabited α] (randN : ℕ → ℕ) :
    ∀ (k ctr : ℕ) (pool : List α), (drawWoR randN k ctr pool).1.length = min k pool.length := by
  intro k
  induction k with
  | zero => intro ctr pool; simp [drawWoR]
  | succ n ih =>
      intro ctr pool
      by_cases hp : pool.isEmpty
      · have : pool = [] := by simpa [List.isEmpty_iff] using hp
        subst this
        simp [drawWoR]
      · have hne : pool ≠ [] := by simpa [List.isEmpty_iff] using hp
        have hlen : 0 < pool.length := List.length_pos.mpr hne
        have hm : randN ctr % pool.length < pool.length := Nat.mod_lt _ hlen
        simp only [drawWoR, hp, Bool.false_eq_true, if_false, List.length_cons,
          ih (ctr + 1) (pool.eraseIdx _)]
        rw [List.length_eraseIdx_of_lt hm]
        omega

theorem not_mem_eraseIdx_self {α : Type} :
    ∀ {l : List α} {i : ℕ} (_ : l.Nodup) (hi : i < l.length),
      l.get ⟨i, hi⟩ ∉ l.eraseIdx i := by
  intro l
  induction l with
  | nil => intro i _ hi; simp at hi
  | cons a t ih =>
      intro i hnd hi
      have hna : a ∉ t := (List.nodup_cons.mp hnd).1
      have hnd' : t.Nodup := (List.nodup_cons.mp hnd).2
      cases i with
      | zero => simpa [List.eraseIdx] using hna
      | succ j =>
          have hj : j < t.length := by simpa using hi
          simp only [List.eraseIdx, List.get, List.mem_cons]
          rintro (h | h)
          · exact hna (h ▸ List.get_mem t j hj)
          · exact ih hnd' hj h

theorem drawWoR_nodup {α : Type} [Inhabited α] (randN : ℕ → ℕ) :
    ∀ (k ctr : ℕ) (pool : List α), pool.Nodup → (drawWoR randN k ctr pool).1.Nodup := by
  intro k
  induction k with
  | zero => intro ctr pool _; simp [drawWoR]
  | succ n ih =>
      intro ctr pool hnd
      by_cases hp : pool.isEmpty
      · simp [drawWoR, hp]
      · have hne : pool ≠ [] := by simpa [List.isEmpty_iff] using hp
        have hlen : 0 < pool.length := List.length_pos.mpr hne
        have hm : randN ctr % pool.length < pool.length := Nat.mod_lt _ hlen
        simp only [drawWoR, hp, Bool.false_eq_true, if_false, List.nodup_cons]
        constructor
        · intro hmem
          have hx : pool.getD (randN ctr % pool.length) default = pool.get ⟨_, hm⟩ := by
            rw [List.getD_eq_getElem?_getD, List.getElem?_eq_getElem hm, Option.getD_some]
            rfl
          exact not_mem_eraseIdx_self hnd hm
            (by
              rw [← hx]
              exact drawWoR_subset randN _ _ _ _ hmem)
        · exact ih _ _ (hnd.sublist (List.eraseIdx_sublist _ _))

/-! ## The refinement loop (claim C9) -/

theorem refineAux_spec {α : Type} (f : ℚ → α × ℚ) :
    ∀ (fuel it : ℕ),
      it ≤ (refineAux f fuel it (pipelineAt f it)).2 ∧
      (refineAux f fuel it (pipelineAt f it)).2 ≤ it + fuel ∧
      (refineAux f fuel it (pipelineAt f it)).1 =
        pipelineAt f (refineAux f fuel it (pipelineAt f it)).2 ∧
      (∀ j, it ≤ j → j < (refineAux f fuel it (pipelineAt f it)).2 →
        (pipelineAt f j).2 < 9 / 10) ∧
      ((refineAux f fuel it (pipelineAt f it)).2 = it + fuel ∨
        9 / 10 ≤ (pipelineAt f (refineAux f fuel it (pipelineAt f it)).2).2) := by
  intro fuel
  induction fuel with
  | zero =>
      intro it
      refine ⟨le_refl _, ?_, rfl, ?_, Or.inl ?_⟩
      · show it ≤ it + 0
        omega
      · intro j h1 h2
        exact absurd (lt_of_le_of_lt h1 h2) (lt_irrefl _)
      · show it = it + 0
        omega
  | succ n ih =>
      intro it
      by_cases h : (pipelineAt f it).2 < 9 / 10
      · have hred : refineAux f (n + 1) it (pipelineAt f it) =
            refineAux f n (it + 1) (pipelineAt f (it + 1)) := by
          simp only [refineAux, if_pos h]
        rw [hred]
        obtain ⟨h1, h2, h3, h4, h5⟩ := ih (it + 1)
        refine ⟨by omega, by omega, h3, ?_, ?_⟩
        · intro j hj1 hj2
          rcases Nat.eq_or_lt_of_le hj1 with he | hlt
          · exact he ▸ h
          · exact h4 j hlt hj2
        · rcases h5 with h5 | h5
          · exact Or.inl (by omega)
          · exact Or.inr h5
      · have hred : refineAux f (n + 1) it (pipelineAt f it) = (pipelineAt f it, it) := by
          simp only [refineAux, if_neg h]
        rw [hred]
        exact ⟨le_refl _, Nat.le_add_right it (n + 1), rfl,
          fun j hj1 hj2 => absurd (lt_of_le_of_lt hj1 hj2) (lt_irrefl _),
          Or.inr (not_lt.mp h)⟩

/-- **C9**: the refinement loop starts at ratio `0.1` (iteration `0` of the
schedule `pipelineAt`, whose ratio formula is stated as the first conjunct);
it performs at most 5 refinement iterations; the kept result is exactly the
pipeline output at the final iteration's ratio (re-run from scratch, since
`f` is a function of the ratio alone); every earlier iteration scored below
`0.9` — so it stops immediately when the initial index is ≥ 0.9, and
terminates on the first index ≥ 0.9 or after exhausting the 5 iterations,
keeping the last computed holdout set. -/
theorem c9_refinement_loop {α : Type} (f : ℚ → α × ℚ) :
    (∀ i : ℕ, pipelineAt f i = f ((1 / 10 : ℚ) * (1 + (i : ℚ) / 10))) ∧
    (refinementRun f).2 ≤ 5 ∧
    (refinementRun f).1 = pipelineAt f (refinementRun f).2 ∧
    (∀ j, j < (refinementRun f).2 → (pipelineAt f j).2 < 9 / 10) ∧
    ((refinementRun f).2 = 5 ∨ 9 / 10 ≤ (pipelineAt f (refinementRun f).2).2) := by
  obtain ⟨h1, h2, h3, h4, h5⟩ := refineAux_spec f 5 0
  exact ⟨fun i => rfl, by simpa using h2, h3,
    fun j hj => h4 j (Nat.zero_le j) hj, by simpa using h5⟩

/-! ## The clustering feature vector (claim C5) -/

/-- **C5** (amended): the feature vector for clustering is
`[size, helix_pct, sheet_pct, core_ratio, avg_accessibility]` plus the
`avg_rmsf_320` value exactly when the key `avg_rmsf_320` itself is present;
rmsf features recorded at any other temperature are ignored. -/
theorem c5_feature_vector (fr : FeatureRecord) :
    featureVectorOf fr =
      [getNum fr "size" 0, getNum fr "helix_pct" 0, getNum fr "sheet_pct" 0,
       getNum fr "core_ratio" 0, getNum fr "avg_accessibility" 0] ++
      (if hasFeat fr "avg_rmsf_320" = true then [getNum fr "avg_rmsf_320" 0] else []) := by
  simp only [featureVectorOf]
  by_cases h : hasFeat fr "avg_rmsf_320" <;> simp [h]

/-- **C5** (counterexample): `frC5` carries an rmsf value only at 348 K
(value `7`), so under the claim its vector would end in that lowest-available
rmsf value; the code produces the bare five-feature vector instead. -/
theorem c5_counterexample :
    hasFeat frC5 "avg_rmsf_348" = true ∧
    featureVectorOf frC5 = [50, 1, 2, 3, 4] ∧
    featureVectorOf frC5 ≠ [50, 1, 2, 3, 4, 7] := by
  refine ⟨by decide, ?_, ?_⟩ <;> decide

/-! ## Subset lemmas for the sampler -/

theorem firstDedup_foldl_subset {α : Type} [BEq α] :
    ∀ (l acc : List α) (x : α),
      x ∈ l.foldl (fun acc x => if acc.contains x then acc else acc ++ [x]) acc →
      x ∈ acc ∨ x ∈ l := by
  intro l
  induction l with
  | nil => intro acc x h; exact Or.inl h
  | cons a t ih =>
      intro acc x h
      rcases ih _ x h with h' | h'
      · have hstep : x ∈ (if acc.contains a = true then acc else acc ++ [a]) := h'
        by_cases hc : acc.contains a
        · rw [if_pos hc] at hstep
          exact Or.inl hstep
        · rw [if_neg hc] at hstep
          rcases List.mem_append.mp hstep with h'' | h''
          · exact Or.inl h''
          · simp only [List.mem_singleton] at h''
            exact Or.inr (h'' ▸ List.mem_cons_self a t)
      · exact Or.inr (List.mem_cons_of_mem a h')

theorem firstDedup_subset {α : Type} [BEq α] {l : List α} {x : α}
    (h : x ∈ firstDedup l) : x ∈ l := by
  rcases firstDedup_foldl_subset l [] x h with h' | h'
  · simp at h'
  · exact h'

theorem clusterMembers_subset (order : List String) (labels : List ℕ) (c : ℕ) :
    ∀ d ∈ clusterMembers order labels c, d ∈ order := by
  intro d hd
  simp only [clusterMembers, List.mem_map, List.mem_filter] at hd
  obtain ⟨⟨x, y⟩, ⟨hmem, _⟩, rfl⟩ := hd
  exact (List.of_mem_zip hmem).1

theorem selectRepsGo_subset (randN : ℕ → ℕ) (order : List String) (labels : List ℕ) :
    ∀ (cids : List ℕ) (ctr : ℕ) (d : String),
      d ∈ (selectRepsGo randN order labels cids ctr).1 → d ∈ order := by
  intro cids
  induction cids with
  | nil => intro ctr d hd; simp [selectRepsGo] at hd
  | cons c rest ih =>
      intro ctr d hd
      by_cases hc : (clusterMembers order labels c).isEmpty
      · rw [show selectRepsGo randN order labels (c :: rest) ctr =
            selectRepsGo randN order labels rest ctr by
          simp only [selectRepsGo, hc, if_true]] at hd
        exact ih _ _ hd
      · have hne : clusterMembers order labels c ≠ [] := by
          simpa [List.isEmpty_iff] using hc
        rw [show selectRepsGo randN order labels (c :: rest) ctr =
            (pickAt (clusterMembers order labels c) (randN ctr) ::
              (selectRepsGo randN order labels rest (ctr + 1)).1,
             (selectRepsGo randN order labels rest (ctr + 1)).2) by
          simp only [selectRepsGo, hc, Bool.false_eq_true, if_false]] at hd
        rcases List.mem_cons.mp hd with rfl | hd'
        · exact clusterMembers_subset _ _ _ _ (pickAt_mem hne _)
        · exact ih _ _ hd'

theorem largeStratumSelection_subset (env : Env) (df : Features) (r : ℚ) (ctr : ℕ)
    (dl : List String) :
    ∀ d ∈ (largeStratumSelection env df r ctr dl).1, d ∈ dl := by
  intro d hd
  simp only [largeStratumSelection] at hd
  split at hd
  · simp at hd
  · have hord := selectRepsGo_subset _ _ _ _ _ _ hd
    simp only [stratumOrder, stratumPairs, List.mem_map] at hord
    obtain ⟨⟨x, v⟩, hx, rfl⟩ := hord
    simp only [List.mem_filterMap] at hx
    obtain ⟨y, hy, hyeq⟩ := hx
    by_cases hdom : hasDom df y
    · rw [if_pos hdom] at hyeq
      obtain ⟨rfl, -⟩ := Prod.mk.injEq .. ▸ Option.some.injEq .. ▸ hyeq
      exact hy
    · rw [if_neg hdom] at hyeq
      exact absurd hyeq (Option.noConfusion)

theorem processStratum_subset (env : Env) (df : Features) (r : ℚ) (ctr : ℕ)
    (dl : List String) :
    ∀ d ∈ (processStratum env df r ctr dl).1, d ∈ dl := by
  intro d hd
  simp only [processStratum] at hd
  split at hd
  · exact largeStratumSelection_subset env df r ctr dl d hd
  · split at hd
    · split at hd
      · split at hd
        · exact List.take_subset 1 dl hd
        · simp at hd
      · exact drawWoR_subset _ _ _ _ _ hd
    · simp at hd

theorem stratifiedGo_subset (env : Env) (df : Features) (r : ℚ) :
    ∀ (strata : List ((ℤ × ℤ × ℤ) × List String)) (ctr : ℕ) (d : String),
      d ∈ (stratifiedGo env df r strata ctr).1 → ∃ s ∈ strata, d ∈ s.2 := by
  intro strata
  induction strata with
  | nil => intro ctr d hd; simp [stratifiedGo] at hd
  | cons s rest ih =>
      intro ctr d hd
      simp only [stratifiedGo, List.mem_append] at hd
      rcases hd with hd | hd
      · exact ⟨s, List.mem_cons_self s rest, processStratum_subset _ _ _ _ _ _ hd⟩
      · obtain ⟨s', hs', hd'⟩ := ih _ _ hd
        exact ⟨s', List.mem_cons_of_mem _ hs', hd'⟩

theorem insertGrouped_mem {κ α : Type} [BEq κ] :
    ∀ (g : List (κ × List α)) (key : κ) (a : α) (p : κ × List α) (x : α),
      p ∈ insertGrouped g key a → x ∈ p.2 → (∃ q ∈ g, x ∈ q.2) ∨ x = a := by
  intro g
  induction g with
  | nil =>
      intro key a p x hp hx
      simp only [insertGrouped, List.mem_singleton] at hp
      subst hp
      simp only [List.mem_singleton] at hx
      exact Or.inr hx
  | cons q rest ih =>
      intro key a p x hp hx
      obtain ⟨k', l⟩ := q
      simp only [insertGrouped] at hp
      by_cases hk : (k' == key) = true
      · rw [if_pos hk] at hp
        rcases List.mem_cons.mp hp with rfl | hp'
        · rcases List.mem_append.mp hx with h | h
          · exact Or.inl ⟨(k', l), List.mem_cons_self _ _, h⟩
          · simp only [List.mem_singleton] at h
            exact Or.inr h
        · exact Or.inl ⟨p, List.mem_cons_of_mem _ hp', hx⟩
      · rw [if_neg hk] at hp
        rcases List.mem_cons.mp hp with rfl | hp'
        · exact Or.inl ⟨(k', l), List.mem_cons_self _ _, hx⟩
        · rcases ih key a p x hp' hx with h | h
          · obtain ⟨q', hq', hx'⟩ := h
            exact Or.inl ⟨q', List.mem_cons_of_mem _ hq', hx'⟩
          · exact Or.inr h

theorem groupPairs_foldl_mem {κ α : Type} [BEq κ] :
    ∀ (l : List (κ × α)) (acc : List (κ × List α)) (p : κ × List α) (x : α),
      p ∈ l.foldl (fun acc q => insertGrouped acc q.1 q.2) acc → x ∈ p.2 →
      (∃ q ∈ acc, x ∈ q.2) ∨ ∃ q ∈ l, x = q.2 := by
  intro l
  induction l with
  | nil => intro acc p x hp hx; exact Or.inl ⟨p, hp, hx⟩
  | cons q rest ih =>
      intro acc p x hp hx
      rcases ih (insertGrouped acc q.1 q.2) p x hp hx with h | h
      · rcases h with ⟨q', hq', hx'⟩
        rcases insertGrouped_mem acc q.1 q.2 q' x hq' hx' with h2 | h2
        · exact Or.inl h2
        · exact Or.inr ⟨q, List.mem_cons_self _ _, h2⟩
      · rcases h with ⟨q', hq', he⟩
        exact Or.inr ⟨q', List.mem_cons_of_mem _ hq', he⟩

theorem groupPairs_mem {κ α : Type} [BEq κ] (l : List (κ × α)) (p : κ × List α)
    (x : α) (hp : p ∈ groupPairs l) (hx : x ∈ p.2) : ∃ q ∈ l, x = q.2 := by
  rcases groupPairs_foldl_mem l [] p x hp hx with h | h
  · simp at h
  · exact h

theorem strataOf_mem (df : Features) (cd : Cath) (s : (ℤ × ℤ × ℤ) × List String)
    (d : String) (hs : s ∈ strataOf df cd) (hd : d ∈ s.2) :
    hasDom df d = true ∧ inCath cd d = true := by
  obtain ⟨q, hq, rfl⟩ := groupPairs_mem _ _ _ hs hd
  simp only [List.mem_filterMap] at hq
  obtain ⟨y, hy, hyeq⟩ := hq
  cases hcl : cd.lookup y with
  | none => rw [hcl] at hyeq; simp at hyeq
  | some t =>
      rw [hcl] at hyeq
      rw [Option.map_some'] at hyeq
      rw [Option.some.injEq] at hyeq
      have hy2 : q.2 = y := by rw [← hyeq]
      rw [hy2]
      have hfil := List.mem_filter.mp hy
      constructor
      · exact (lookup_isSome_iff df y).mpr (firstDedup_subset hfil.1)
      · exact hfil.2

/-! ## Connected-component lemmas (claim C2) -/

theorem mem_foldl_addToComponents (edge : String → String → Bool) :
    ∀ (cands : List String) (comps : List (List String)) (c : List String) (x : String),
      c ∈ cands.foldl (addToComponents edge) comps → x ∈ c →
      (∃ c0 ∈ comps, x ∈ c0) ∨ x ∈ cands := by
  intro cands
  induction cands with
  | nil => intro comps c x hc hx; exact Or.inl ⟨c, hc, hx⟩
  | cons d t ih =>
      intro comps c x hc hx
      rcases ih (addToComponents edge comps d) c x hc hx with h | h
      · rcases h with ⟨c0, hc0, hx0⟩
        rcases List.mem_cons.mp hc0 with rfl | hc0'
        · rcases List.mem_cons.mp hx0 with rfl | hx0'
          · exact Or.inr (List.mem_cons_self _ _)
          · obtain ⟨c1, hc1, hx1⟩ := List.mem_flatten.mp hx0'
            exact Or.inl ⟨c1, List.mem_of_mem_filter hc1, hx1⟩
        · exact Or.inl ⟨c0, List.mem_of_mem_filter hc0', hx0⟩
      · exact Or.inr (List.mem_cons_of_mem _ h)

theorem connectedComponents_subset (edge : String → String → Bool)
    (cands : List String) (c : List String) (x : String)
    (hc : c ∈ connectedComponents edge cands) (hx : x ∈ c) : x ∈ cands := by
  rcases mem_foldl_addToComponents edge cands [] c x hc hx with h | h
  · simp at h
  · exact h

theorem edgeClosed_addToComponents (edge : String → String → Bool)
    (comps : List (List String)) (d : String) (h : EdgeClosed edge comps) :
    EdgeClosed edge (addToComponents edge comps d) := by
  intro c1 hc1 c2 hc2 x hx y hy hxy
  simp only [addToComponents, List.mem_cons] at hc1 hc2
  rcases hc1 with rfl | hc1 <;> rcases hc2 with rfl | hc2
  · rfl
  · exfalso
    have hc2' := List.mem_filter.mp hc2
    rcases List.mem_cons.mp hx with rfl | hx'
    · have htt : touches edge x c2 = true := by
        simp only [touches, List.any_eq_true]
        exact ⟨y, hy, hxy⟩
      simp [htt] at hc2'
    · obtain ⟨tc, htc, hxt⟩ := List.mem_flatten.mp hx'
      have htc' := List.mem_filter.mp htc
      have heq : tc = c2 := h tc htc'.1 c2 hc2'.1 x hxt y hy hxy
      rw [heq] at htc'
      simp [htc'.2] at hc2'
  · exfalso
    have hc1' := List.mem_filter.mp hc1
    rcases List.mem_cons.mp hy with rfl | hy'
    · have hdx : (edge y x || edge x y) = true := by
        rw [Bool.or_comm]
        exact hxy
      have htt : touches edge y c1 = true := by
        simp only [touches, List.any_eq_true]
        exact ⟨x, hx, hdx⟩
      simp [htt] at hc1'
    · obtain ⟨tc, htc, hyt⟩ := List.mem_flatten.mp hy'
      have htc' := List.mem_filter.mp htc
      have heq : c1 = tc := h c1 hc1'.1 tc htc'.1 x hx y hyt hxy
      rw [← heq] at htc'
      simp [htc'.2] at hc1'
  · exact h c1 (List.mem_of_mem_filter hc1) c2 (List.mem_of_mem_filter hc2) x hx y hy hxy

theorem edgeClosed_connectedComponents (edge : String → String → Bool)
    (cands : List String) : EdgeClosed edge (connectedComponents edge cands) := by
  have main : ∀ (l : List String) (comps : List (List String)), EdgeClosed edge comps →
      EdgeClosed edge (l.foldl (addToComponents edge) comps) := by
    intro l
    induction l with
    | nil => intro comps h; exact h
    | cons d t ih => intro comps h; exact ih _ (edgeClosed_addToComponents edge comps d h)
  refine main cands [] ?_
  intro c1 hc1
  exact absurd hc1 (List.not_mem_nil c1)

theorem selectedComponents_mem_comps (env : Env) (ctr : ℕ) (cands : List String)
    (df : Features) (cd : Cath) (r : ℚ) (C : List String)
    (hC : C ∈ selectedComponents env ctr cands df cd r) (hne : C ≠ []) :
    C ∈ connectedComponents (edgeRel cd) cands := by
  simp only [selectedComponents, List.mem_map] at hC
  obtain ⟨i, -, rfl⟩ := hC
  by_cases hi : i < (sortedComponentsOf cd cands).length
  · have hmem : (sortedComponentsOf cd cands).getD i [] ∈ sortedComponentsOf cd cands := by
      rw [List.getD_eq_getElem?_getD, List.getElem?_eq_getElem hi, Option.getD_some]
      exact List.getElem_mem hi
    have hperm := pySorted_perm (fun a b => decide (b.length ≤ a.length))
      (connectedComponents (edgeRel cd) cands)
    exact hperm.mem_iff.mp hmem
  · exfalso
    apply hne
    rw [List.getD_eq_getElem?_getD, List.getElem?_eq_none (le_of_not_lt hi)]
    rfl

theorem network_aware_mem (env : Env) (ctr : ℕ) (cands : List String)
    (df : Features) (cd : Cath) (r : ℚ) (d : String)
    (hd : d ∈ network_aware_sampling env ctr cands df cd r) :
    ∃ C ∈ selectedComponents env ctr cands df cd r, d ∈ C := by
  simpa [network_aware_sampling, List.mem_flatten] using hd

theorem network_aware_subset (env : Env) (ctr : ℕ) (cands : List String)
    (df : Features) (cd : Cath) (r : ℚ) (d : String)
    (hd : d ∈ network_aware_sampling env ctr cands df cd r) : d ∈ cands := by
  obtain ⟨C, hC, hdC⟩ := network_aware_mem env ctr cands df cd r d hd
  have hne : C ≠ [] := by
    intro h
    rw [h] at hdC
    exact absurd hdC (List.not_mem_nil d)
  exact connectedComponents_subset _ _ _ _
    (selectedComponents_mem_comps env ctr cands df cd r C hC hne) hdC

theorem hierarchical_subset (env : Env) (df : Features) (cd : Cath) (r : ℚ)
    (d : String) (hd : d ∈ hierarchical_stratified_sampling env df cd r) :
    hasDom df d = true ∧ inCath cd d = true := by
  have hcand : d ∈ (stratifiedCandidates env df cd r).1 :=
    network_aware_subset env _ _ df cd r d hd
  obtain ⟨s, hs, hds⟩ := stratifiedGo_subset env df r _ _ d hcand
  exact strataOf_mem df cd s d hs hds

/-- **C2**: homology closure of the filter.  Whenever two domains of the
final holdout share the 4-character source-structure prefix or an identical
full CATH 4-tuple (the edge condition of the graph), they lie in one and the
same selected connected component — the filter outputs whole components and
never splits one. -/
theorem c2_homology_closure (env : Env) (ctr : ℕ) (cands : List String)
    (df : Features) (cd : Cath) (r : ℚ) (d1 d2 : String)
    (h1 : d1 ∈ network_aware_sampling env ctr cands df cd r)
    (h2 : d2 ∈ network_aware_sampling env ctr cands df cd r)
    (hshare : d1.take 4 = d2.take 4 ∨
      ∃ t : CathTuple, cd.lookup d1 = some t ∧ cd.lookup d2 = some t) :
    ∃ C ∈ selectedComponents env ctr cands df cd r, d1 ∈ C ∧ d2 ∈ C := by
  obtain ⟨C1, hC1, hd1⟩ := network_aware_mem env ctr cands df cd r d1 h1
  obtain ⟨C2, hC2, hd2⟩ := network_aware_mem env ctr cands df cd r d2 h2
  have hne1 : C1 ≠ [] := by
    intro h
    rw [h] at hd1
    exact absurd hd1 (List.not_mem_nil d1)
  have hne2 : C2 ≠ [] := by
    intro h
    rw [h] at hd2
    exact absurd hd2 (List.not_mem_nil d2)
  have hm1 := selectedComponents_mem_comps env ctr cands df cd r C1 hC1 hne1
  have hm2 := selectedComponents_mem_comps env ctr cands df cd r C2 hC2 hne2
  have hedge : (edgeRel cd d1 d2 || edgeRel cd d2 d1) = true := by
    rcases hshare with h | ⟨t, ht1, ht2⟩
    · simp [edgeRel, h]
    · simp [edgeRel, ht1, ht2]
  have heq : C1 = C2 :=
    edgeClosed_connectedComponents (edgeRel cd) cands C1 hm1 C2 hm2 d1 hd1 d2 hd2 hedge
  refine ⟨C1, hC1, hd1, ?_⟩
  rw [heq]
  exact hd2

/-- **C3**: the written holdout/training partition.  The holdout set produced
by the full sampling pipeline and the training set
`set(all_domains) - set(holdout_domains)` are disjoint, and their union is
exactly the set of all domains with feature records. -/
theorem c3_partition (env : Env) (df : Features) (cd : Cath) (r : ℚ) :
    (∀ d, ¬(d ∈ hierarchical_stratified_sampling env df cd r ∧
        d ∈ trainingOf (allDomainsOf df) (hierarchical_stratified_sampling env df cd r))) ∧
    (∀ d, d ∈ allDomainsOf df ↔
      d ∈ hierarchical_stratified_sampling env df cd r ∨
        d ∈ trainingOf (allDomainsOf df) (hierarchical_stratified_sampling env df cd r)) := by
  constructor
  · rintro d ⟨hh, ht⟩
    have hc := (List.mem_filter.mp ht).2
    have hcon : (hierarchical_stratified_sampling env df cd r).contains d = true :=
      List.elem_iff.mpr hh
    rw [hcon] at hc
    simp at hc
  · intro d
    constructor
    · intro hall
      by_cases hh : d ∈ hierarchical_stratified_sampling env df cd r
      · exact Or.inl hh
      · refine Or.inr (List.mem_filter.mpr ⟨hall, ?_⟩)
        have : (hierarchical_stratified_sampling env df cd r).contains d = false := by
          rw [← Bool.not_eq_true]
          intro hcon
          exact hh (List.elem_iff.mp hcon)
        rw [this]
        rfl
    · rintro (hh | ht)
      · exact (lookup_isSome_iff df d).mp (hierarchical_subset env df cd r d hh).1
      · exact (List.mem_filter.mp ht).1

/-! ## Validator dictionary-shape lemmas (claims C1, C6, C7, C10) -/

theorem mem_ite_list {c : Prop} [Decidable c] {x : String} {l : List String} :
    (x ∈ (if c then l else [])) ↔ c ∧ x ∈ l := by
  by_cases h : c
  · simp [h]
  · simp [h]

theorem segRmsf_keys (env : Env) (df : Features) (hwf awf : List String) (d0 : String) :
    (segRmsf env df hwf awf d0).map Prod.fst =
      if hasFeat (featOf df d0) "avg_rmsf_320" = true then ["ks_rmsf_pval"] else [] := by
  simp only [segRmsf]
  split <;> simp

theorem segChi2_keys (env : Env) (hclass aclass : List ℤ) :
    (segChi2 env hclass aclass).map Prod.fst =
      if 1 < (firstDedup hclass).length ∧ 1 < (firstDedup aclass).length then
        ["chi2_class_pval"] else [] := by
  simp only [segChi2]
  split <;> simp

theorem segStab_keys (df : Features) (hwf awf : List String) (d0 : String) :
    (segStab df hwf awf d0).map Prod.fst =
      if hasFeat (featOf df d0) "stability_class" = true then ["stability_coverage"] else [] := by
  simp only [segStab]
  split <;> simp

theorem vPre_keys (env : Env) (df : Features) (hwf awf : List String)
    (hclass aclass : List ℤ) (d0 : String) :
    (vPre env df hwf awf hclass aclass d0).map Prod.fst =
      ["ks_size_pval"] ++
      (if hasFeat (featOf df d0) "avg_rmsf_320" = true then ["ks_rmsf_pval"] else []) ++
      ["ks_helix_pval", "ks_sheet_pval"] ++
      (if 1 < (firstDedup hclass).length ∧ 1 < (firstDedup aclass).length then
        ["chi2_class_pval"] else []) ++
      (if hasFeat (featOf df d0) "stability_class" = true then ["stability_coverage"] else []) := by
  simp only [vPre, List.map_append, segRmsf_keys, segChi2_keys, segStab_keys,
    List.map_cons, List.map_nil]

theorem vPre_keys_sub (env : Env) (df : Features) (hwf awf : List String)
    (hclass aclass : List ℤ) (d0 : String) :
    ∀ k ∈ (vPre env df hwf awf hclass aclass d0).map Prod.fst,
      k ∈ ["ks_size_pval", "ks_rmsf_pval", "ks_helix_pval", "ks_sheet_pval",
           "chi2_class_pval", "stability_coverage"] := by
  intro k hk
  rw [vPre_keys] at hk
  simp only [List.mem_append, mem_ite_list, List.mem_cons, List.not_mem_nil,
    or_false] at hk
  rcases hk with ((((h | h) | h) | h) | h)
  · simp [h]
  · simp [h.2]
  · rcases h with h | h <;> simp [h]
  · simp [h.2]
  · simp [h.2]

theorem lookupD_eq_of_mem {l : List (String × ℚ)} {k : String}
    (h : k ∈ l.map Prod.fst) (d1 d2 : ℚ) : lookupD l k d1 = lookupD l k d2 := by
  have hs := (lookup_isSome_iff l k).mpr h
  cases hl : l.lookup k with
  | none => rw [hl] at hs; simp at hs
  | some v => simp [lookupD, hl]

/-- Inversion for a successful validator run: the guards passed, the first
holdout-with-features domain exists and the outcome is `vOut` at it. -/
theorem statistical_validation_ok_inv (env : Env) (holdout all_domains : List String)
    (df : Features) (cd : Cath) (vo : VOut)
    (hok : statistical_validation env holdout all_domains df cd = Except.ok vo) :
    ∃ d0, (holdout.filter (fun d => hasDom df d)).head? = some d0 ∧
      vo = vOut env holdout all_domains df cd d0 := by
  simp only [statistical_validation] at hok
  split at hok
  · exact absurd hok (by simp)
  · split at hok
    next => exact absurd hok (by simp)
    next d0 heq =>
        split at hok
        · exact absurd hok (by simp)
        · exact ⟨d0, heq, (Except.ok.inj hok).symm⟩

/-- **C1** (amended): when no holdout domain has a feature record, the
validator fails hard — with scipy's `ValueError` raised inside
`stats.kstest` at `validation.py` line 17 (`ks_2samp` rejects the empty size
sample).  The empty-list subscript at line 21 is therefore never reached (no
`IndexError` occurs), and no `MissingDataError` or `EmptyInputError` is
raised — no such error types exist in the code. -/
theorem c1_empty_holdout_error (env : Env) (holdout all_domains : List String)
    (df : Features) (cd : Cath)
    (hempty : holdout.filter (fun d => hasDom df d) = []) :
    statistical_validation env holdout all_domains df cd =
      Except.error VErr.valueError ∧
    statistical_validation env holdout all_domains df cd ≠
      Except.error VErr.indexError := by
  have h1 : statistical_validation env holdout all_domains df cd =
      Except.error VErr.valueError := by
    simp [statistical_validation, hempty]
  exact ⟨h1, by rw [h1]; simp⟩

/-- **C1** (counterexample to the claim as stated): on a concrete input whose
holdout list is empty, the validator's outcome is scipy's plain
`ValueError` from the empty-data KS call — not any `MissingDataError` /
`EmptyInputError` signal (which the code never defines). -/
theorem c1_counterexample :
    statistical_validation envC [] ["a"] dfA cdA = Except.error VErr.valueError := rfl

/-- **C1** (witness): a holdout list whose only entry lacks a feature record
also takes the amended theorem's error path. -/
theorem c1_witness :
    statistical_validation envC ["zz"] ["a"] dfA cdA = Except.error VErr.valueError ∧
    statistical_validation envC ["zz"] ["a"] dfA cdA ≠ Except.error VErr.indexError :=
  c1_empty_holdout_error envC ["zz"] ["a"] dfA cdA (by decide)

/-- **C4** (amended): the number of components sampled from a non-empty
stability-class bucket is `max(1, floor(|bucket| × r))` — `int(...)`
truncates, it does not take the ceiling — the sampled indices come from the
bucket, and the underlying draws are without replacement (pairwise distinct
positions). -/
theorem c4_bucket_count (env : Env) (ctr : ℕ) (bucket : List (ℕ × List String))
    (r : ℚ) (hne : bucket ≠ []) (hr : r ≤ 1) :
    (bucketDraw env ctr bucket r).1.length = max 1 (pyInt ((bucket.length : ℚ) * r)) ∧
    (∀ i ∈ (bucketDraw env ctr bucket r).1, ∃ p ∈ bucket, i = p.1) ∧
    (drawWoR env.randN (max 1 (pyInt ((bucket.length : ℚ) * r))) ctr
      (List.range bucket.length)).1.Nodup := by
  have hn : 0 < bucket.length := List.length_pos.mpr hne
  have hk : max 1 (pyInt ((bucket.length : ℚ) * r)) ≤ bucket.length := by
    have h1 : (bucket.length : ℚ) * r ≤ (bucket.length : ℚ) :=
      mul_le_of_le_one_right (by positivity) hr
    have h2 : Int.floor ((bucket.length : ℚ) * r) ≤ (bucket.length : ℤ) := by
      calc Int.floor ((bucket.length : ℚ) * r)
          ≤ Int.floor ((bucket.length : ℚ)) := Int.floor_le_floor h1
        _ = (bucket.length : ℤ) := Int.floor_intCast _
    have h3 : pyInt ((bucket.length : ℚ) * r) ≤ bucket.length := by
      simpa [pyInt, Int.toNat_le] using h2
    omega
  refine ⟨?_, ?_, ?_⟩
  · simp only [bucketDraw, List.length_map]
    rw [drawWoR_length]
    simp only [List.length_range]
    omega
  · intro i hi
    simp only [bucketDraw, List.mem_map] at hi
    obtain ⟨p, hp, rfl⟩ := hi
    have hpr : p ∈ List.range bucket.length := drawWoR_subset _ _ _ _ _ hp
    have hplt : p < bucket.length := List.mem_range.mp hpr
    refine ⟨bucket.getD p (0, []), ?_, rfl⟩
    rw [List.getD_eq_getElem?_getD, List.getElem?_eq_getElem hplt, Option.getD_some]
    exact List.getElem_mem hplt
  · exact drawWoR_nodup _ _ _ _ (List.nodup_range _)

/-- **C4** (counterexample): a bucket of three components at ratio `1/2`
yields `max(1, int(3 × 1/2)) = 1` sampled component, while the claim's
`ceil(3 × 1/2)` is `2`. -/
theorem c4_counterexample :
    (bucketDraw envC 0 bucketC (1 / 2)).1.length = 1 ∧
    pyCeil ((bucketC.length : ℚ) * (1 / 2)) = 2 := by
  have hk : max 1 (pyInt ((bucketC.length : ℚ) * (1 / 2))) = 1 := by
    norm_num [pyInt, bucketC]
  constructor
  · have hstep : (bucketDraw envC 0 bucketC (1 / 2)).1.length =
        (drawWoR envC.randN 1 0 (List.range 3)).1.length := by
      simp only [bucketDraw, List.length_map]
      rw [show List.range bucketC.length = List.range 3 by rfl, hk]
    rw [hstep]
    decide
  · have h32 : ((bucketC.length : ℚ) * (1 / 2)) = 3 / 2 := by
      norm_num [bucketC]
    rw [h32]
    have hc2 : Int.ceil ((3 : ℚ) / 2) = 2 := by
      rw [Int.ceil_eq_iff]; norm_num
    simp [pyCeil, hc2]

/-- **C4** (witness): the amended count theorem applied to the concrete
three-component bucket at ratio `1/2`. -/
theorem c4_witness :
    (bucketDraw envC 0 bucketC (1 / 2)).1.length =
      max 1 (pyInt ((bucketC.length : ℚ) * (1 / 2))) ∧
    (∀ i ∈ (bucketDraw envC 0 bucketC (1 / 2)).1, ∃ p ∈ bucketC, i = p.1) ∧
    (drawWoR envC.randN (max 1 (pyInt ((bucketC.length : ℚ) * (1 / 2)))) 0
      (List.range bucketC.length)).1.Nodup :=
  c4_bucket_count envC 0 bucketC (1 / 2) (by decide) (by norm_num)

/-! ## One representative per non-empty cluster (claim C8) -/

theorem selectRepsGo_length (randN : ℕ → ℕ) (order : List String) (labels : List ℕ) :
    ∀ (cids : List ℕ) (ctr : ℕ),
      (selectRepsGo randN order labels cids ctr).1.length =
        (cids.filter (fun c => !(clusterMembers order labels c).isEmpty)).length := by
  intro cids
  induction cids with
  | nil => intro ctr; rfl
  | cons c rest ih =>
      intro ctr
      by_cases hc : (clusterMembers order labels c).isEmpty
      · rw [show selectRepsGo randN order labels (c :: rest) ctr =
            selectRepsGo randN order labels rest ctr by
          simp only [selectRepsGo, hc, if_true]]
        rw [ih ctr]
        simp [List.filter_cons, hc]
      · rw [show selectRepsGo randN order labels (c :: rest) ctr =
            (pickAt (clusterMembers order labels c) (randN ctr) ::
              (selectRepsGo randN order labels rest (ctr + 1)).1,
             (selectRepsGo randN order labels rest (ctr + 1)).2) by
          simp only [selectRepsGo, hc, Bool.false_eq_true, if_false]]
        simp only [List.length_cons, ih (ctr + 1)]
        simp [List.filter_cons, hc]

theorem selectRepsGo_mem_cluster (randN : ℕ → ℕ) (order : List String)
    (labels : List ℕ) :
    ∀ (cids : List ℕ) (ctr : ℕ) (d : String),
      d ∈ (selectRepsGo randN order labels cids ctr).1 →
      ∃ c ∈ cids, d ∈ clusterMembers order labels c := by
  intro cids
  induction cids with
  | nil => intro ctr d hd; simp [selectRepsGo] at hd
  | cons c rest ih =>
      intro ctr d hd
      by_cases hc : (clusterMembers order labels c).isEmpty
      · rw [show selectRepsGo randN order labels (c :: rest) ctr =
            selectRepsGo randN order labels rest ctr by
          simp only [selectRepsGo, hc, if_true]] at hd
        obtain ⟨c', hc', hd'⟩ := ih _ _ hd
        exact ⟨c', List.mem_cons_of_mem _ hc', hd'⟩
      · have hne : clusterMembers order labels c ≠ [] := by
          simpa [List.isEmpty_iff] using hc
        rw [show selectRepsGo randN order labels (c :: rest) ctr =
            (pickAt (clusterMembers order labels c) (randN ctr) ::
              (selectRepsGo randN order labels rest (ctr + 1)).1,
             (selectRepsGo randN order labels rest (ctr + 1)).2) by
          simp only [selectRepsGo, hc, Bool.false_eq_true, if_false]] at hd
        rcases List.mem_cons.mp hd with rfl | hd'
        · exact ⟨c, List.mem_cons_self _ _, pickAt_mem hne _⟩
        · obtain ⟨c', hc', hd''⟩ := ih _ _ hd'
          exact ⟨c', List.mem_cons_of_mem _ hc', hd''⟩

/-- **C8**: for a stratum of at least 10 members the code takes the
clustering branch; the target cluster count is
`max(1, ceil(|stratum| × r))`; the branch selects exactly one representative
from every non-empty cluster (the selection length equals the number of
non-empty cluster ids below the target count), and every selected domain
belongs to the cluster it represents. -/
theorem c8_large_stratum (env : Env) (df : Features) (r : ℚ) (ctr : ℕ)
    (dl : List String) (h10 : 10 ≤ dl.length) :
    processStratum env df r ctr dl = largeStratumSelection env df r ctr dl ∧
    nClustersFor dl.length r = max 1 (pyCeil ((dl.length : ℚ) * r)) ∧
    (largeStratumSelection env df r ctr dl).1.length =
      ((List.range (nClustersFor dl.length r)).filter
        (fun c => !(clusterMembers (stratumOrder df dl)
          (stratumLabels env df r dl) c).isEmpty)).length ∧
    (∀ d ∈ (largeStratumSelection env df r ctr dl).1,
      ∃ c < nClustersFor dl.length r,
        d ∈ clusterMembers (stratumOrder df dl) (stratumLabels env df r dl) c) := by
  refine ⟨by simp only [processStratum, if_pos h10], rfl, ?_, ?_⟩
  · by_cases hp : (stratumPairs df dl).isEmpty
    · rw [show largeStratumSelection env df r ctr dl = ([], ctr) by
        simp only [largeStratumSelection, hp, if_true]]
      have hord : stratumOrder df dl = [] := by
        simp only [stratumOrder]
        rw [List.isEmpty_iff.mp hp]
        rfl
      have hall : ∀ c : ℕ,
          (clusterMembers (stratumOrder df dl) (stratumLabels env df r dl) c).isEmpty = true := by
        intro c
        rw [hord]
        rfl
      rw [List.filter_eq_nil_iff.mpr (fun c _ => by simp [hall c])]
      rfl
    · rw [show largeStratumSelection env df r ctr dl =
          selectClusterReps env.randN (nClustersFor dl.length r)
            (stratumOrder df dl) (stratumLabels env df r dl) ctr by
        simp only [largeStratumSelection, hp, Bool.false_eq_true, if_false]]
      exact selectRepsGo_length _ _ _ _ _
  · intro d hd
    by_cases hp : (stratumPairs df dl).isEmpty
    · rw [show largeStratumSelection env df r ctr dl = ([], ctr) by
        simp only [largeStratumSelection, hp, if_true]] at hd
      simp at hd
    · rw [show largeStratumSelection env df r ctr dl =
          selectClusterReps env.randN (nClustersFor dl.length r)
            (stratumOrder df dl) (stratumLabels env df r dl) ctr by
        simp only [largeStratumSelection, hp, Bool.false_eq_true, if_false]] at hd
      obtain ⟨c, hc, hdc⟩ := selectRepsGo_mem_cluster _ _ _ _ _ _ hd
      exact ⟨c, List.mem_range.mp hc, hdc⟩

theorem vOut_results_eq (env : Env) (holdout all_domains : List String)
    (df : Features) (cd : Cath) (d0 : String) :
    (vOut env holdout all_domains df cd d0).results =
      vPre env df (holdout.filter (fun d => hasDom df d))
        (all_domains.filter (fun d => hasDom df d))
        ((holdout.filterMap (fun d => cd.lookup d)).map (fun c => c.1))
        ((all_domains.filterMap (fun d => cd.lookup d)).map (fun c => c.1)) d0 ++
      [("hierarchy_coverage", (vOut env holdout all_domains df cd d0).hCov)] ++
      [("distribution_similarity", (vOut env holdout all_domains df cd d0).dSim)] := rfl

theorem results_lookup_dsim (pre : List (String × ℚ)) (hcov dsim : ℚ)
    (hsub : ∀ k ∈ pre.map Prod.fst,
      k ∈ ["ks_size_pval", "ks_rmsf_pval", "ks_helix_pval", "ks_sheet_pval",
           "chi2_class_pval", "stability_coverage"]) :
    (pre ++ [("hierarchy_coverage", hcov)] ++
      [("distribution_similarity", dsim)]).lookup "distribution_similarity" = some dsim := by
  have hnot : "distribution_similarity" ∉ pre.map Prod.fst := by
    intro hmem
    have := hsub _ hmem
    simp at this
  rw [List.append_assoc, lookup_append_of_not_mem_left _ hnot]
  rfl

theorem results_lookup_hcov (pre : List (String × ℚ)) (hcov dsim : ℚ)
    (hsub : ∀ k ∈ pre.map Prod.fst,
      k ∈ ["ks_size_pval", "ks_rmsf_pval", "ks_helix_pval", "ks_sheet_pval",
           "chi2_class_pval", "stability_coverage"]) :
    (pre ++ [("hierarchy_coverage", hcov)] ++
      [("distribution_similarity", dsim)]).lookup "hierarchy_coverage" = some hcov := by
  have hnot : "hierarchy_coverage" ∉ pre.map Prod.fst := by
    intro hmem
    have := hsub _ hmem
    simp at this
  rw [List.append_assoc, lookup_append_of_not_mem_left _ hnot]
  rfl

theorem cubeRoot_zero : cubeRoot 0 = 0 := Real.zero_rpow (by norm_num)

theorem cubeRoot_bounds {x : ℝ} (h0 : 0 ≤ x) (h1 : x ≤ 1) :
    0 ≤ cubeRoot x ∧ cubeRoot x ≤ 1 :=
  ⟨Real.rpow_nonneg h0 _, Real.rpow_le_one h0 h1 (by norm_num)⟩

/-- **C7**: the stored `representation_index` is the cube root of the product
of the stored `distribution_similarity`, the stored `hierarchy_coverage`, and
the stored `stability_coverage` read back with default `1.0`; it is `0` when
any of those three factors is exactly `0`, and it lies in `[0, 1]` whenever
all three factors do. -/
theorem c7_representation_index (env : Env) (holdout all_domains : List String)
    (df : Features) (cd : Cath) (vo : VOut)
    (hok : statistical_validation env holdout all_domains df cd = Except.ok vo) :
    representation_index vo =
      cubeRoot ((lookupD vo.results "distribution_similarity" 0 : ℝ) *
        (lookupD vo.results "hierarchy_coverage" 0 : ℝ) *
        (lookupD vo.results "stability_coverage" 1 : ℝ)) ∧
    ((lookupD vo.results "distribution_similarity" 0 = 0 ∨
        lookupD vo.results "hierarchy_coverage" 0 = 0 ∨
        lookupD vo.results "stability_coverage" 1 = 0) →
      representation_index vo = 0) ∧
    ((0 ≤ lookupD vo.results "distribution_similarity" 0 ∧
        lookupD vo.results "distribution_similarity" 0 ≤ 1) →
      (0 ≤ lookupD vo.results "hierarchy_coverage" 0 ∧
        lookupD vo.results "hierarchy_coverage" 0 ≤ 1) →
      (0 ≤ lookupD vo.results "stability_coverage" 1 ∧
        lookupD vo.results "stability_coverage" 1 ≤ 1) →
      0 ≤ representation_index vo ∧ representation_index vo ≤ 1) := by
  obtain ⟨d0, hh0, hvo⟩ :=
    statistical_validation_ok_inv env holdout all_domains df cd vo hok
  subst hvo
  have hds : lookupD (vOut env holdout all_domains df cd d0).results
      "distribution_similarity" 0 = (vOut env holdout all_domains df cd d0).dSim := by
    simp only [lookupD]
    rw [vOut_results_eq, results_lookup_dsim _ _ _ (vPre_keys_sub _ _ _ _ _ _ _)]
    rfl
  have hhc : lookupD (vOut env holdout all_domains df cd d0).results
      "hierarchy_coverage" 0 = (vOut env holdout all_domains df cd d0).hCov := by
    simp only [lookupD]
    rw [vOut_results_eq, results_lookup_hcov _ _ _ (vPre_keys_sub _ _ _ _ _ _ _)]
    rfl
  have hsc : lookupD (vOut env holdout all_domains df cd d0).results
      "stability_coverage" 1 = (vOut env holdout all_domains df cd d0).sCov := rfl
  refine ⟨?_, ?_, ?_⟩
  · rw [hds, hhc, hsc]
    rfl
  · intro h
    rw [hds, hhc, hsc] at h
    have hzero : ((vOut env holdout all_domains df cd d0).dSim : ℝ) *
        ((vOut env holdout all_domains df cd d0).hCov : ℝ) *
        ((vOut env holdout all_domains df cd d0).sCov : ℝ) = 0 := by
      rcases h with h | h | h <;> rw [h] <;> push_cast <;> ring
    show cubeRoot _ = 0
    rw [hzero]
    exact cubeRoot_zero
  · intro h1 h2 h3
    rw [hds] at h1
    rw [hhc] at h2
    rw [hsc] at h3
    have hprod0 : (0 : ℝ) ≤ ((vOut env holdout all_domains df cd d0).dSim : ℝ) *
        ((vOut env holdout all_domains df cd d0).hCov : ℝ) *
        ((vOut env holdout all_domains df cd d0).sCov : ℝ) := by
      have a1 : (0 : ℝ) ≤ ((vOut env holdout all_domains df cd d0).dSim : ℝ) := by
        exact_mod_cast h1.1
      have a2 : (0 : ℝ) ≤ ((vOut env holdout all_domains df cd d0).hCov : ℝ) := by
        exact_mod_cast h2.1
      have a3 : (0 : ℝ) ≤ ((vOut env holdout all_domains df cd d0).sCov : ℝ) := by
        exact_mod_cast h3.1
      positivity
    have hprod1 : ((vOut env holdout all_domains df cd d0).dSim : ℝ) *
        ((vOut env holdout all_domains df cd d0).hCov : ℝ) *
        ((vOut env holdout all_domains df cd d0).sCov : ℝ) ≤ 1 := by
      have a1 : ((vOut env holdout all_domains df cd d0).dSim : ℝ) ≤ 1 := by
        exact_mod_cast h1.2
      have a2 : ((vOut env holdout all_domains df cd d0).hCov : ℝ) ≤ 1 := by
        exact_mod_cast h2.2
      have a3 : ((vOut env holdout all_domains df cd d0).sCov : ℝ) ≤ 1 := by
        exact_mod_cast h3.2
      have b1 : (0 : ℝ) ≤ ((vOut env holdout all_domains df cd d0).hCov : ℝ) := by
        exact_mod_cast h2.1
      have b2 : (0 : ℝ) ≤ ((vOut env holdout all_domains df cd d0).sCov : ℝ) := by
        exact_mod_cast h3.1
      exact mul_le_one₀ (mul_le_one₀ a1 b1 a2) b2 a3
    exact cubeRoot_bounds hprod0 hprod1

/-- **C10**: whenever the results dict produced by `statistical_validation`
contains the key `stability_coverage`, the standalone helper
`calculate_representation_index` applied to that dict returns exactly the
stored `representation_index` (the helper's missing-key default `0` never
fires on the three factors it reads). -/
theorem c10_helper_agrees (env : Env) (holdout all_domains : List String)
    (df : Features) (cd : Cath) (vo : VOut)
    (hok : statistical_validation env holdout all_domains df cd = Except.ok vo)
    (hkey : "stability_coverage" ∈ vo.results.map Prod.fst) :
    calculate_representation_index vo.results = representation_index vo := by
  obtain ⟨d0, hh0, hvo⟩ :=
    statistical_validation_ok_inv env holdout all_domains df cd vo hok
  subst hvo
  have hds : lookupD (vOut env holdout all_domains df cd d0).results
      "distribution_similarity" 0 = (vOut env holdout all_domains df cd d0).dSim := by
    simp only [lookupD]
    rw [vOut_results_eq, results_lookup_dsim _ _ _ (vPre_keys_sub _ _ _ _ _ _ _)]
    rfl
  have hhc : lookupD (vOut env holdout all_domains df cd d0).results
      "hierarchy_coverage" 0 = (vOut env holdout all_domains df cd d0).hCov := by
    simp only [lookupD]
    rw [vOut_results_eq, results_lookup_hcov _ _ _ (vPre_keys_sub _ _ _ _ _ _ _)]
    rfl
  have h01 := lookupD_eq_of_mem hkey (0 : ℚ) 1
  simp only [calculate_representation_index]
  rw [h01, hds, hhc]
  rfl

/-- **C6** (amended): whether the RMSF goodness-of-fit p-value and the
stability-coverage score appear in the results dict is decided solely by
whether the *first* holdout domain with features carries the
`avg_rmsf_320` resp. `stability_class` key — not by availability of the
field anywhere in the population. -/
theorem c6_first_domain_gates (env : Env) (holdout all_domains : List String)
    (df : Features) (cd : Cath) (vo : VOut) (d0 : String)
    (hh : (holdout.filter (fun d => hasDom df d)).head? = some d0)
    (hok : statistical_validation env holdout all_domains df cd = Except.ok vo) :
    (("ks_rmsf_pval" ∈ vo.results.map Prod.fst) ↔
      hasFeat (featOf df d0) "avg_rmsf_320" = true) ∧
    (("stability_coverage" ∈ vo.results.map Prod.fst) ↔
      hasFeat (featOf df d0) "stability_class" = true) := by
  obtain ⟨d0', hh0, hvo⟩ :=
    statistical_validation_ok_inv env holdout all_domains df cd vo hok
  rw [hh] at hh0
  obtain rfl : d0 = d0' := Option.some.inj hh0
  subst hvo
  rw [vOut_results_eq]
  simp only [List.map_append, List.map_cons, List.map_nil, vPre_keys]
  constructor
  · by_cases h1 : hasFeat (featOf df d0) "avg_rmsf_320" = true <;>
      simp [h1, mem_ite_list, List.mem_append]
  · by_cases h2 : hasFeat (featOf df d0) "stability_class" = true <;>
      simp [h2, mem_ite_list, List.mem_append]

/-- **C6** (counterexample to the claim as stated): domain `"b"` of the
population carries `avg_rmsf_320`, yet because the first holdout domain
`"a"` lacks it, the RMSF p-value is skipped — availability of the metric
depends on which domain appears first. -/
theorem c6_counterexample :
    hasFeat (featOf dfC6 "b") "avg_rmsf_320" = true ∧
    (statistical_validation envC ["a", "b"] ["a", "b"] dfC6 cdA).toOption.map
      (fun vo => (vo.results.map Prod.fst).contains "ks_rmsf_pval") =
      some false := by
  constructor
  · decide
  · decide

/-- **C6** (witness): the gating theorem applied to the concrete two-domain
input whose first holdout domain has neither optional key. -/
theorem c6_witness :
    (("ks_rmsf_pval" ∈ (vOut envC ["a", "b"] ["a", "b"] dfC6 cdA "a").results.map Prod.fst) ↔
      hasFeat (featOf dfC6 "a") "avg_rmsf_320" = true) ∧
    (("stability_coverage" ∈
        (vOut envC ["a", "b"] ["a", "b"] dfC6 cdA "a").results.map Prod.fst) ↔
      hasFeat (featOf dfC6 "a") "stability_class" = true) :=
  c6_first_domain_gates envC ["a", "b"] ["a", "b"] dfC6 cdA
    (vOut envC ["a", "b"] ["a", "b"] dfC6 cdA "a") "a" (by decide) rfl

/-- **C7** (witness): the representation-index theorem applied to a concrete
one-domain validator run. -/
theorem c7_witness :
    representation_index (vOut envC ["a"] ["a"] dfA cdA "a") =
      cubeRoot ((lookupD (vOut envC ["a"] ["a"] dfA cdA "a").results
          "distribution_similarity" 0 : ℝ) *
        (lookupD (vOut envC ["a"] ["a"] dfA cdA "a").results "hierarchy_coverage" 0 : ℝ) *
        (lookupD (vOut envC ["a"] ["a"] dfA cdA "a").results "stability_coverage" 1 : ℝ)) ∧
    ((lookupD (vOut envC ["a"] ["a"] dfA cdA "a").results "distribution_similarity" 0 = 0 ∨
        lookupD (vOut envC ["a"] ["a"] dfA cdA "a").results "hierarchy_coverage" 0 = 0 ∨
        lookupD (vOut envC ["a"] ["a"] dfA cdA "a").results "stability_coverage" 1 = 0) →
      representation_index (vOut envC ["a"] ["a"] dfA cdA "a") = 0) ∧
    ((0 ≤ lookupD (vOut envC ["a"] ["a"] dfA cdA "a").results "distribution_similarity" 0 ∧
        lookupD (vOut envC ["a"] ["a"] dfA cdA "a").results "distribution_similarity" 0 ≤ 1) →
      (0 ≤ lookupD (vOut envC ["a"] ["a"] dfA cdA "a").results "hierarchy_coverage" 0 ∧
        lookupD (vOut envC ["a"] ["a"] dfA cdA "a").results "hierarchy_coverage" 0 ≤ 1) →
      (0 ≤ lookupD (vOut envC ["a"] ["a"] dfA cdA "a").results "stability_coverage" 1 ∧
        lookupD (vOut envC ["a"] ["a"] dfA cdA "a").results "stability_coverage" 1 ≤ 1) →
      0 ≤ representation_index (vOut envC ["a"] ["a"] dfA cdA "a") ∧
        representation_index (vOut envC ["a"] ["a"] dfA cdA "a") ≤ 1) :=
  c7_representation_index envC ["a"] ["a"] dfA cdA (vOut envC ["a"] ["a"] dfA cdA "a") rfl

/-- **C10** (witness): the agreement theorem applied to a concrete run whose
results dict does contain `stability_coverage`. -/
theorem c10_witness :
    calculate_representation_index (vOut envC ["a"] ["a"] dfB cdA "a").results =
      representation_index (vOut envC ["a"] ["a"] dfB cdA "a") :=
  c10_helper_agrees envC ["a"] ["a"] dfB cdA (vOut envC ["a"] ["a"] dfB cdA "a")
    rfl (by decide)

theorem c2_network_eval :
    network_aware_sampling envC 0 candsC2 [] [] (1 / 10) = ["aaaa2", "aaaa1"] := by
  have hsort : sortedComponentsOf [] candsC2 = [["aaaa2", "aaaa1"]] := by decide
  have hbd : (bucketDraw envC 0 [(0, ["aaaa2", "aaaa1"])] (1 / 10)).1 = [0] := by
    have hk : max 1 (pyInt ((1 : ℚ) * (1 / 10))) = 1 := by norm_num [pyInt]
    simp only [bucketDraw]
    rw [show ((([(0, ["aaaa2", "aaaa1"])] : List (ℕ × List String)).length : ℚ)) = (1 : ℚ)
      by norm_num]
    rw [hk]
    decide
  have hsi : (sampledIndices envC 0 [] [["aaaa2", "aaaa1"]] (1 / 10)).1 = [0] := by
    have hb : stabilityBuckets ([] : Features) [["aaaa2", "aaaa1"]] =
        [("unknown", [(0, ["aaaa2", "aaaa1"])])] := by decide
    simp only [sampledIndices, hb, bucketsGo]
    rw [hbd]
    decide
  have hsel : selectedComponents envC 0 candsC2 [] [] (1 / 10) = [["aaaa2", "aaaa1"]] := by
    simp only [selectedComponents, hsort, hsi]
    decide
  simp only [network_aware_sampling, hsel]
  decide

/-- **C2** (witness): the closure theorem applied to two candidate domains
with a shared source-structure prefix, which the filter keeps in one selected
component. -/
theorem c2_witness :
    ∃ C ∈ selectedComponents envC 0 candsC2 [] [] (1 / 10),
      "aaaa1" ∈ C ∧ "aaaa2" ∈ C :=
  c2_homology_closure envC 0 candsC2 [] [] (1 / 10) "aaaa1" "aaaa2"
    (by rw [c2_network_eval]; decide) (by rw [c2_network_eval]; decide)
    (Or.inl (by decide))

/-- **C8** (witness): the clustering-branch theorem applied to the
ten-domain stratum at ratio `0.1`, plus the scenario numbers it implies:
the target cluster count is `1` and exactly one representative is selected. -/
theorem c8_witness :
    (processStratum envC dfC8 (1 / 10) 0 dlC8 =
        largeStratumSelection envC dfC8 (1 / 10) 0 dlC8 ∧
      nClustersFor dlC8.length (1 / 10) = max 1 (pyCeil ((dlC8.length : ℚ) * (1 / 10))) ∧
      (largeStratumSelection envC dfC8 (1 / 10) 0 dlC8).1.length =
        ((List.range (nClustersFor dlC8.length (1 / 10))).filter
          (fun c => !(clusterMembers (stratumOrder dfC8 dlC8)
            (stratumLabels envC dfC8 (1 / 10) dlC8) c).isEmpty)).length ∧
      (∀ d ∈ (largeStratumSelection envC dfC8 (1 / 10) 0 dlC8).1,
        ∃ c < nClustersFor dlC8.length (1 / 10),
          d ∈ clusterMembers (stratumOrder dfC8 dlC8)
            (stratumLabels envC dfC8 (1 / 10) dlC8) c)) ∧
    nClustersFor dlC8.length (1 / 10) = 1 ∧
    (largeStratumSelection envC dfC8 (1 / 10) 0 dlC8).1.length = 1 := by
  have hk : nClustersFor dlC8.length (1 / 10) = 1 := by
    norm_num [nClustersFor, pyCeil, dlC8]
  have hlab : stratumLabels envC dfC8 (1 / 10) dlC8 = List.replicate 10 0 := by
    simp only [stratumLabels, hk]
    decide
  refine ⟨c8_large_stratum envC dfC8 (1 / 10) 0 dlC8 (by decide), hk, ?_⟩
  simp only [largeStratumSelection, hk, hlab]
  decide
